import Mathlib

/-!
Shallow embedding of the `users` REST service (`src/main.go`) and proofs
about its list-users query building, validation, response envelope, and the
point-lookup/update handlers of both source variants.

Machine integers are modelled as `Int` (Go `int` is 64-bit; `strconv.Atoi`
range checks are made explicit).  Timestamps are opaque `Int` values.
Raw query parameters are modelled as `String`, with `""` denoting an absent
parameter (this is what Gin's `c.Query` returns for an absent key).
-/

namespace GoRest

/-- User record of the database-backed variant (`src/main.go` lines 20-26).
`created_at` / `updated_at` are opaque timestamps. -/
structure User where
  id : Int
  name : String
  email : String
  created_at : Int
  updated_at : Int
deriving Repr, DecidableEq

/-- ASCII decimal digit test, as used by `strconv.Atoi`. -/
def isDigitCode (c : Char) : Bool := 48 ≤ c.toNat && c.toNat ≤ 57

/-- Value of a list of decimal digit characters, most significant first. -/
def digitsToNat (cs : List Char) : Nat :=
  cs.foldl (fun a c => a * 10 + (c.toNat - 48)) 0

/-- Embedding of Go `strconv.Atoi` on a 64-bit platform: an optional single
sign `+`/`-`, then one or more ASCII digits, value within the `int64` range;
`none` models a non-nil error (syntax error or range overflow). -/
def goAtoi (s : String) : Option Int :=
  match s.data with
  | [] => none
  | c :: rest =>
    let signed : Bool × List Char :=
      if c = '-' then (true, rest)
      else if c = '+' then (false, rest)
      else (false, c :: rest)
    if signed.2 ≠ [] ∧ signed.2.all isDigitCode then
      let v : Int := if signed.1 then -(digitsToNat signed.2 : Int) else (digitsToNat signed.2 : Int)
      if -(2 ^ 63) ≤ v ∧ v ≤ 2 ^ 63 - 1 then some v else none
    else none

/-- Gin `c.DefaultQuery`: the default replaces an absent (empty) raw value. -/
def defaultQuery (raw dflt : String) : String := if raw = "" then dflt else raw

/-- Effective limit (`src/main.go` lines 46, 52-57): start from 10; if the
raw string is non-empty, parses, and the value is `> 0` and `≤ 100`, use it. -/
def effLimit (limitRaw : String) : Int :=
  if limitRaw ≠ "" then
    match goAtoi limitRaw with
    | some n => if n > 0 ∧ n ≤ 100 then n else 10
    | none => 10
  else 10

/-- Effective offset (`src/main.go` lines 47, 59-64): start from 0; if the
raw string is non-empty, parses, and the value is `≥ 0`, use it. -/
def effOffset (offsetRaw : String) : Int :=
  if offsetRaw ≠ "" then
    match goAtoi offsetRaw with
    | some n => if n ≥ 0 then n else 0
    | none => 0
  else 0

/-- The sort-field allow-list lookup (`src/main.go` line 67): membership in
the literal map `id, name, email` (a missing key yields `false`). -/
def validSort (s : String) : Bool := s == "id" || s == "name" || s == "email"

/-- Effective sort field (`src/main.go` lines 49, 66-70): `c.DefaultQuery`
with default `"id"`, then reset to `"id"` unless in the allow-list. -/
def effSort (sortRaw : String) : String :=
  let sortBy := defaultQuery sortRaw "id"
  if !validSort sortBy then "id" else sortBy

/-- Effective order (`src/main.go` lines 50, 72-75): `c.DefaultQuery` with
default `"asc"`, then reset to `"asc"` unless exactly `"asc"` or `"desc"`
(case-sensitive). -/
def effOrder (orderRaw : String) : String :=
  let order := defaultQuery orderRaw "asc"
  if order ≠ "asc" ∧ order ≠ "desc" then "asc" else order

/-- ASCII uppercase of one character (what `strings.ToUpper` does on the
ASCII-only inputs it receives here). -/
def upChar (c : Char) : Char :=
  if 97 ≤ c.toNat ∧ c.toNat ≤ 122 then Char.ofNat (c.toNat - 32) else c

/-- Embedding of `strings.ToUpper` restricted to ASCII. -/
def goToUpper (s : String) : String := String.mk (s.data.map upChar)

/-- The fixed base SELECT raw-string literal (`src/main.go` lines 78-81),
whitespace included. -/
def baseSelect : String :=
  "\n\t\t\tSELECT id, name, email, created_at, updated_at\n\t\t\tFROM users\n\t\t"

/-- The search filter fragment appended for a non-empty term
(`src/main.go` line 85). -/
def whereClause : String := "WHERE name ILIKE $1 OR email ILIKE $1 "

/-- Query text assembled from the validated values (`src/main.go`
lines 78-90): base SELECT, optional WHERE, then
`ORDER BY sortBy ORDER LIMIT n OFFSET m` via `fmt.Sprintf`. -/
def queryText (q sortBy order : String) (limit offset : Int) : String :=
  baseSelect ++ (if q ≠ "" then whereClause else "") ++
    "ORDER BY " ++ sortBy ++ " " ++ goToUpper order ++
    " LIMIT " ++ toString limit ++ " OFFSET " ++ toString offset

/-- Bound-parameter list (`src/main.go` lines 82-87): empty, or the single
wildcard-wrapped search term. -/
def listArgs (q : String) : List String :=
  if q ≠ "" then ["%" ++ q ++ "%"] else []

/-- Full query assembly of the GET /users handler from the raw request
parameters: the SQL text and the bound parameters. -/
def buildListQuery (q sortRaw orderRaw limitRaw offsetRaw : String) :
    String × List String :=
  (queryText q (effSort sortRaw) (effOrder orderRaw)
    (effLimit limitRaw) (effOffset offsetRaw), listArgs q)

/-- ASCII case folding to character codes: PostgreSQL `ILIKE` compares
pattern and subject case-insensitively (here: ASCII letters). -/
def lowerCode (c : Char) : Nat :=
  if 65 ≤ c.toNat ∧ c.toNat ≤ 90 then c.toNat + 32 else c.toNat

/-- SQL LIKE pattern matching on case-folded character codes: `%` (37)
matches any sequence, `_` (95) matches exactly one character, `\` (92)
escapes the next pattern character; any other code matches itself.
A pattern ending in a bare escape matches nothing (PostgreSQL rejects it). -/
def likeM : List Nat → List Nat → Bool
  | [], s => s.isEmpty
  | x :: ps, s =>
    if x = 37 then
      s.tails.any (fun t => likeM ps t)
    else if x = 95 then
      (match s with
       | [] => false
       | _ :: s' => likeM ps s')
    else if x = 92 then
      (match ps with
       | [] => false
       | e :: ps' =>
         match s with
         | [] => false
         | c :: s' => (c == e) && likeM ps' s')
    else
      (match s with
       | [] => false
       | c :: s' => (c == x) && likeM ps s')

/-- PostgreSQL `subject ILIKE pattern`: LIKE matching after case folding
both sides. -/
def ilike (pattern subject : String) : Bool :=
  likeM (pattern.data.map lowerCode) (subject.data.map lowerCode)

/-- Row filter denoted by `WHERE name ILIKE $1 OR email ILIKE $1` with the
bound parameter `"%" ++ q ++ "%"` (`src/main.go` lines 83-87). -/
def matchesSearch (q : String) (u : User) : Bool :=
  ilike ("%" ++ q ++ "%") u.name || ilike ("%" ++ q ++ "%") u.email

/-- Key comparison for ORDER BY on one of the allow-listed columns. -/
def fieldLE (sortBy : String) (u v : User) : Bool :=
  if sortBy = "name" then (compare u.name v.name).isLE
  else if sortBy = "email" then (compare u.email v.email).isLE
  else u.id ≤ v.id

/-- Row comparison for `ORDER BY sortBy order`: `desc` flips the key order. -/
def rowLE (sortBy order : String) (u v : User) : Bool :=
  if order = "desc" then fieldLE sortBy v u else fieldLE sortBy u v

/-- Insertion into a sorted list (store-side sorting model). -/
def insertSorted (le : User → User → Bool) (x : User) : List User → List User
  | [] => [x]
  | y :: ys => if le x y then x :: y :: ys else y :: insertSorted le x ys

/-- Insertion sort: the store's ORDER BY. -/
def sortRows (le : User → User → Bool) : List User → List User
  | [] => []
  | x :: xs => insertSorted le x (sortRows le xs)

/-- Denotation of the assembled list query against a store state `db`:
optional ILIKE filter, ORDER BY, then OFFSET and LIMIT
(`src/main.go` lines 78-90 as executed by PostgreSQL). -/
def semanticRows (db : List User) (q sortBy order : String)
    (limit offset : Int) : List User :=
  let filtered := if q ≠ "" then db.filter (matchesSearch q) else db
  ((sortRows (rowLE sortBy order) filtered).drop offset.toNat).take limit.toNat

/-- Response envelope of GET /users (`src/main.go` lines 111-118).
`items = none` models Go's nil slice, which marshals to JSON `null`;
`items = some l` models a non-nil slice marshalling to a JSON array. -/
structure Envelope where
  items : Option (List User)
  limit : Int
  offset : Int
  sort : String
  order : String
  query : String
deriving Repr, DecidableEq

/-- Row accumulation of the scan loop (`src/main.go` lines 100-108): the
slice starts nil and each row is appended, so it becomes non-nil exactly
when at least one row is scanned. -/
def accumRows (rows : List User) : Option (List User) :=
  rows.foldl (fun acc u => some (acc.getD [] ++ [u])) none

/-- The GET /users handler on the success path: validate parameters, run
the assembled query against the store, accumulate rows, and return the
envelope (`src/main.go` lines 44-119). -/
def listUsers (db : List User) (q sortRaw orderRaw limitRaw offsetRaw : String) :
    Envelope :=
  let limit := effLimit limitRaw
  let offset := effOffset offsetRaw
  let sortBy := effSort sortRaw
  let order := effOrder orderRaw
  { items := accumRows (semanticRows db q sortBy order limit offset),
    limit := limit, offset := offset, sort := sortBy, order := order,
    query := q }

/-- The item list an envelope carries (`none`, JSON null, carries none). -/
def itemsOf (env : Envelope) : List User := env.items.getD []

/-- One cursor row as seen by the scan loop: `rows.Scan` either yields a
`User` or fails with an error. -/
inductive ScanRow where
  | ok (u : User)
  | fail (e : String)
deriving Repr, DecidableEq

/-- Result of `db.Query`: the query itself may fail, or it yields a cursor
of rows, each of which may fail to scan. -/
inductive FetchResult where
  | queryErr (e : String)
  | rows (rs : List ScanRow)
deriving Repr, DecidableEq

/-- An HTTP response of the list endpoint: a 200 JSON envelope or a JSON
error object with a status code. -/
inductive Response where
  | json200 (env : Envelope)
  | jsonErr (status : Nat) (e : String)
deriving Repr, DecidableEq

/-- The scan loop of the list handler (`src/main.go` lines 100-108): walk
the cursor, appending each scanned row to the (initially nil) slice; a scan
error aborts with a 500 error response, discarding everything accumulated. -/
def scanLoop (limit offset : Int) (sortBy order q : String) :
    List ScanRow → Option (List User) → Response
  | [], acc =>
    .json200 { items := acc, limit := limit, offset := offset,
               sort := sortBy, order := order, query := q }
  | .ok u :: rest, acc => scanLoop limit offset sortBy order q rest (some (acc.getD [] ++ [u]))
  | .fail e :: _, _ => .jsonErr 500 e

/-- The GET /users handler over an arbitrary `db.Query` outcome
(`src/main.go` lines 44-119): a query error yields 500; otherwise the scan
loop runs. -/
def listUsersResponse (fetch : FetchResult)
    (q sortRaw orderRaw limitRaw offsetRaw : String) : Response :=
  let limit := effLimit limitRaw
  let offset := effOffset offsetRaw
  let sortBy := effSort sortRaw
  let order := effOrder orderRaw
  match fetch with
  | .queryErr e => .jsonErr 500 e
  | .rows rs => scanLoop limit offset sortBy order q rs none

/-- The users obtained when the fetch and every scan succeed; `none` when
any store-level step fails. -/
def scansOk : List ScanRow → Option (List User)
  | [] => some []
  | .ok u :: rest => (scansOk rest).map (u :: ·)
  | .fail _ :: _ => none

/-- All-success view of a fetch outcome. -/
def fetchOk : FetchResult → Option (List User)
  | .queryErr _ => none
  | .rows rs => scansOk rs

/-- Outcome of `QueryRow(...).Scan(...)` for a point lookup: a row, no row
(`pgx.ErrNoRows`), or a store failure. -/
inductive RowResult where
  | row (u : User)
  | noRows
  | dbErr (e : String)
deriving Repr, DecidableEq

/-- An HTTP response of a single-user endpoint. -/
inductive UserResponse where
  | okUser (status : Nat) (u : User)
  | errResp (status : Nat) (e : String)
deriving Repr, DecidableEq

/-- GET /users/:id of the database-backed variant (`src/main.go`
lines 124-141): any non-nil error from `Scan` - including a store failure -
is reported as 404 "user not found". -/
def getUserById1 (res : RowResult) : UserResponse :=
  match res with
  | .row u => .okUser 200 u
  | .noRows => .errResp 404 "user not found"
  | .dbErr _ => .errResp 404 "user not found"

/-- User record of the in-memory variant (`src/main.go` lines 270-274):
no timestamps, and `ID` is bound from the request body on writes. -/
structure User2 where
  id : Int
  name : String
  email : String
deriving Repr, DecidableEq

/-- Go `string(rune(n))`: the one-character string of the code point, or
the replacement character for invalid values. -/
def runeString (n : Int) : String :=
  if 0 ≤ n ∧ (n < 55296 ∨ (57344 ≤ n ∧ n ≤ 1114111)) then
    String.singleton (Char.ofNat n.toNat)
  else "�"

/-- GET /users/:id of the in-memory variant (`src/main.go` lines 296-305):
the raw path id is compared against `string(rune(u.ID + '0'))` for each
user in order; no match yields 404. -/
def getUserById2 (users : List User2) (idStr : String) : Option User2 :=
  users.find? (fun u => idStr == runeString (u.id + 48))

/-- PUT /users/:id of the in-memory variant (`src/main.go` lines 320-335):
the first user whose id renders to the raw path id is replaced wholesale by
the decoded request body, which is also returned; otherwise 404 (`none`). -/
def putUser2 (users : List User2) (idStr : String) (body : User2) :
    List User2 × Option User2 :=
  match users with
  | [] => ([], none)
  | u :: rest =>
    if idStr == runeString (u.id + 48) then (body :: rest, some body)
    else
      let r := putUser2 rest idStr body
      (u :: r.1, r.2)

/-- A code list free of the LIKE metacharacters `%`, `_`, `\`. -/
def noMetaL (l : List Nat) : Prop := ∀ x ∈ l, x ≠ 37 ∧ x ≠ 95 ∧ x ≠ 92

/-- A search term free of the LIKE metacharacters `%`, `_`, `\`. -/
def noMeta (q : String) : Prop :=
  ∀ c ∈ q.data, c.toNat ≠ 37 ∧ c.toNat ≠ 95 ∧ c.toNat ≠ 92

/-- Case-insensitive substring containment: the property the spec ascribes
to the search filter. -/
def ciContains (q s : String) : Prop :=
  (q.data.map lowerCode) <:+: (s.data.map lowerCode)

instance (q s : String) : Decidable (ciContains q s) := by
  unfold ciContains
  infer_instance

instance (q : String) : Decidable (noMeta q) := by
  unfold noMeta
  infer_instance

lemma likeM_star (ps s : List Nat) :
    likeM (37 :: ps) s = s.tails.any (fun t => likeM ps t) := by
  rw [likeM.eq_def]
  rfl

lemma likeM_lit_nil (x : Nat) (ps : List Nat)
    (h37 : x ≠ 37) (h95 : x ≠ 95) (h92 : x ≠ 92) :
    likeM (x :: ps) [] = false := by
  rw [likeM.eq_def]
  simp [h37, h95, h92]

lemma likeM_lit_cons (x : Nat) (ps : List Nat) (c : Nat) (s' : List Nat)
    (h37 : x ≠ 37) (h95 : x ≠ 95) (h92 : x ≠ 92) :
    likeM (x :: ps) (c :: s') = ((c == x) && likeM ps s') := by
  rw [likeM.eq_def]
  simp [h37, h95, h92]

lemma likeM_percent_nil (s : List Nat) : likeM [37] s = true := by
  rw [likeM_star, List.any_eq_true]
  exact ⟨[], by simp [List.mem_tails], rfl⟩

/-- A metacharacter-free pattern segment followed by `%` matches exactly
the strings it is a prefix of. -/
lemma likeM_lit_seg (q : List Nat) (hq : noMetaL q) (s : List Nat) :
    likeM (q ++ [37]) s = true ↔ q <+: s := by
  induction q generalizing s with
  | nil => simp [likeM_percent_nil, List.nil_prefix]
  | cons x ps ih =>
    have hx := hq x (by simp)
    have hps : noMetaL ps := fun y hy => hq y (by simp [hy])
    cases s with
    | nil =>
      rw [List.cons_append, likeM_lit_nil x _ hx.1 hx.2.1 hx.2.2]
      simp [List.prefix_nil]
    | cons c s' =>
      rw [List.cons_append, likeM_lit_cons x _ c s' hx.1 hx.2.1 hx.2.2]
      simp only [Bool.and_eq_true, beq_iff_eq, ih hps, List.cons_prefix_cons]
      constructor <;> rintro ⟨rfl, hb⟩ <;> exact ⟨rfl, hb⟩

/-- The full `%seg%` pattern with a metacharacter-free segment matches
exactly the strings containing the segment. -/
lemma likeM_seg_contained (q : List Nat) (hq : noMetaL q) (s : List Nat) :
    likeM (37 :: (q ++ [37])) s = true ↔ q <:+: s := by
  rw [likeM_star, List.any_eq_true, List.infix_iff_prefix_suffix]
  constructor
  · rintro ⟨t, hts, hm⟩
    exact ⟨t, (likeM_lit_seg q hq t).1 hm, (List.mem_tails t s).1 hts⟩
  · rintro ⟨t, hpre, hsuf⟩
    exact ⟨t, (List.mem_tails t s).2 hsuf, (likeM_lit_seg q hq t).2 hpre⟩

lemma pattern_data (q : String) :
    ("%" ++ q ++ "%").data.map lowerCode = 37 :: (q.data.map lowerCode ++ [37]) := by
  have h1 : (("%" : String)).data.map lowerCode = [37] := rfl
  rw [String.data_append, String.data_append, List.map_append, List.map_append, h1]
  simp

lemma lowerCode_noMeta (q : String) (h : noMeta q) :
    noMetaL (q.data.map lowerCode) := by
  intro x hx
  simp only [List.mem_map] at hx
  obtain ⟨c, hc, rfl⟩ := hx
  have hc2 := h c hc
  unfold lowerCode
  split <;> omega

/-- On metacharacter-free terms, the handler's ILIKE filter is exactly
case-insensitive substring containment. -/
lemma ilike_ciContains (q s : String) (h : noMeta q) :
    ilike ("%" ++ q ++ "%") s = true ↔ ciContains q s := by
  unfold ilike ciContains
  rw [pattern_data]
  exact likeM_seg_contained _ (lowerCode_noMeta q h) _

lemma mem_insertSorted (le : User → User → Bool) (x y : User) (l : List User) :
    y ∈ insertSorted le x l ↔ y = x ∨ y ∈ l := by
  induction l with
  | nil => simp [insertSorted]
  | cons z zs ih =>
    simp only [insertSorted]
    split
    · simp
    · simp [ih]; tauto

lemma mem_sortRows (le : User → User → Bool) (y : User) (l : List User) :
    y ∈ sortRows le l ↔ y ∈ l := by
  induction l with
  | nil => simp [sortRows]
  | cons z zs ih => simp [sortRows, mem_insertSorted, ih]

/-- Every row the denoted query returns comes from the store, and (for a
non-empty term) passes the ILIKE filter. -/
lemma mem_semanticRows (db : List User) (q sortBy order : String)
    (limit offset : Int) (u : User)
    (h : u ∈ semanticRows db q sortBy order limit offset) :
    u ∈ db ∧ (q ≠ "" → matchesSearch q u = true) := by
  unfold semanticRows at h
  have h2 := List.mem_of_mem_drop (List.mem_of_mem_take h)
  rw [mem_sortRows] at h2
  by_cases hq : q = ""
  · subst hq; simp at h2; exact ⟨h2, by simp⟩
  · simp [hq, List.mem_filter] at h2
    exact ⟨h2.1, fun _ => h2.2⟩

lemma accumRows_go (l : List User) : ∀ acc : List User,
    l.foldl (fun a u => some (a.getD [] ++ [u])) (some acc) = some (acc ++ l) := by
  induction l with
  | nil => simp
  | cons u rest ih =>
    intro acc
    simpa [List.foldl_cons] using ih (acc ++ [u])

lemma accumRows_eq (l : List User) :
    accumRows l = if l = [] then none else some l := by
  cases l with
  | nil => rfl
  | cons u rest => simpa [accumRows, List.foldl_cons] using accumRows_go rest [u]

lemma itemsOf_listUsers (db : List User) (q sortRaw orderRaw limitRaw offsetRaw : String) :
    itemsOf (listUsers db q sortRaw orderRaw limitRaw offsetRaw) =
      semanticRows db q (effSort sortRaw) (effOrder orderRaw)
        (effLimit limitRaw) (effOffset offsetRaw) := by
  show (accumRows _).getD [] = _
  rw [accumRows_eq]
  split <;> simp_all

lemma goAtoi_empty : goAtoi "" = none := rfl

lemma effLimit_eq (limitRaw : String) :
    effLimit limitRaw =
      (match goAtoi limitRaw with
       | some n => if 1 ≤ n ∧ n ≤ 100 then n else 10
       | none => 10) := by
  unfold effLimit
  by_cases h : limitRaw = ""
  · subst h; simp [goAtoi_empty]
  · rw [if_pos h]
    cases hg : goAtoi limitRaw with
    | none => rfl
    | some n =>
      show (if n > 0 ∧ n ≤ 100 then n else 10) = if 1 ≤ n ∧ n ≤ 100 then n else 10
      split_ifs <;> omega

lemma effOffset_eq (offsetRaw : String) :
    effOffset offsetRaw =
      (match goAtoi offsetRaw with
       | some n => if 0 ≤ n then n else 0
       | none => 0) := by
  unfold effOffset
  by_cases h : offsetRaw = ""
  · subst h; simp [goAtoi_empty]
  · rw [if_pos h]

lemma effLimit_bounds (limitRaw : String) :
    1 ≤ effLimit limitRaw ∧ effLimit limitRaw ≤ 100 := by
  rw [effLimit_eq]
  cases goAtoi limitRaw with
  | none => exact ⟨by norm_num, by norm_num⟩
  | some n =>
    show 1 ≤ (if 1 ≤ n ∧ n ≤ 100 then n else 10) ∧ (if 1 ≤ n ∧ n ≤ 100 then n else 10) ≤ 100
    split_ifs <;> omega

lemma effOffset_nonneg (offsetRaw : String) : 0 ≤ effOffset offsetRaw := by
  rw [effOffset_eq]
  cases goAtoi offsetRaw with
  | none => exact by norm_num
  | some n =>
    show 0 ≤ if 0 ≤ n then n else 0
    split_ifs <;> omega

lemma effSort_eq (sortRaw : String) :
    effSort sortRaw = if validSort sortRaw then sortRaw else "id" := by
  simp only [effSort, defaultQuery]
  by_cases h : sortRaw = ""
  · subst h; decide
  · rw [if_neg h]
    cases hv : validSort sortRaw <;> simp [hv]

lemma effSort_mem (sortRaw : String) :
    effSort sortRaw = "id" ∨ effSort sortRaw = "name" ∨ effSort sortRaw = "email" := by
  rw [effSort_eq]
  by_cases h : validSort sortRaw = true
  · have h3 : sortRaw = "id" ∨ sortRaw = "name" ∨ sortRaw = "email" := by
      simpa [validSort, or_assoc] using h
    rw [if_pos h]
    exact h3
  · rw [if_neg h]
    exact Or.inl rfl

lemma effOrder_cases (orderRaw : String) :
    effOrder orderRaw = "asc" ∨ effOrder orderRaw = "desc" := by
  simp only [effOrder, defaultQuery]
  by_cases h : orderRaw = ""
  · subst h; decide
  · rw [if_neg h]
    split_ifs with h2
    · exact Or.inl rfl
    · tauto

lemma effOrder_default (orderRaw : String)
    (h1 : orderRaw ≠ "asc") (h2 : orderRaw ≠ "desc") : effOrder orderRaw = "asc" := by
  simp only [effOrder, defaultQuery]
  by_cases h : orderRaw = ""
  · subst h; decide
  · rw [if_neg h, if_pos ⟨h1, h2⟩]

lemma effSort_default (sortRaw : String)
    (h1 : sortRaw ≠ "id") (h2 : sortRaw ≠ "name") (h3 : sortRaw ≠ "email") :
    effSort sortRaw = "id" := by
  rw [effSort_eq]
  simp [validSort, h1, h2, h3]

/-- Invariant of the scan loop: it either aborts with a 500 error, or scans
every row successfully and reports the full accumulated slice. -/
lemma scanLoop_cases (limit offset : Int) (sortBy order q : String) :
    ∀ (rs : List ScanRow) (acc : Option (List User)),
      (∃ e, scanLoop limit offset sortBy order q rs acc = .jsonErr 500 e) ∨
      (∃ us, scansOk rs = some us ∧
        scanLoop limit offset sortBy order q rs acc =
          .json200 { items := us.foldl (fun a u => some (a.getD [] ++ [u])) acc,
                     limit := limit, offset := offset, sort := sortBy,
                     order := order, query := q }) := by
  intro rs
  induction rs with
  | nil => exact fun acc => Or.inr ⟨[], rfl, rfl⟩
  | cons r rest ih =>
    intro acc
    cases r with
    | ok u =>
      rcases ih (some (acc.getD [] ++ [u])) with ⟨e, he⟩ | ⟨us, hus, heq⟩
      · exact Or.inl ⟨e, by simp only [scanLoop]; exact he⟩
      · refine Or.inr ⟨u :: us, by simp [scansOk, hus], ?_⟩
        simp only [scanLoop, List.foldl_cons]
        exact heq
    | fail e => exact Or.inl ⟨e, rfl⟩

/-- Concrete store state of the in-memory variant after seven successful
POSTs onto the seeded three users (ids are assigned as `len(users)+1`). -/
def grownStore : List User2 :=
  [⟨1, "John Doe", "john@example.com"⟩, ⟨2, "Jane Smith", "jane@example.com"⟩,
   ⟨3, "Alice Johnson", "alice@example.com"⟩, ⟨4, "Dave", "dave@example.com"⟩,
   ⟨5, "Erin", "erin@example.com"⟩, ⟨6, "Frank", "frank@example.com"⟩,
   ⟨7, "Grace", "grace@example.com"⟩, ⟨8, "Heidi", "heidi@example.com"⟩,
   ⟨9, "Ivan", "ivan@example.com"⟩, ⟨10, "Judy", "judy@example.com"⟩]

/-- C1: for every raw input, the assembled GET /users query is the fixed
base SELECT, optionally the fixed WHERE fragment, and an ORDER BY whose
field is from the allow-list (id, name, email) and whose direction is ASC
or DESC, with LIMIT in [1,100] and OFFSET nonnegative rendered as integer
literals; the only request-derived string in the bound parameters is the
wildcard-wrapped search term. -/
theorem listQuery_orderby_allowlisted (q sortRaw orderRaw limitRaw offsetRaw : String) :
    ∃ (f d : String) (l o : Int),
      (f = "id" ∨ f = "name" ∨ f = "email") ∧ (d = "ASC" ∨ d = "DESC") ∧
      1 ≤ l ∧ l ≤ 100 ∧ 0 ≤ o ∧
      buildListQuery q sortRaw orderRaw limitRaw offsetRaw =
        (baseSelect ++ (if q ≠ "" then whereClause else "") ++
          "ORDER BY " ++ f ++ " " ++ d ++ " LIMIT " ++ toString l ++ " OFFSET " ++ toString o,
         if q ≠ "" then ["%" ++ q ++ "%"] else []) := by
  refine ⟨effSort sortRaw, goToUpper (effOrder orderRaw), effLimit limitRaw, effOffset offsetRaw,
    effSort_mem sortRaw, ?_, (effLimit_bounds limitRaw).1, (effLimit_bounds limitRaw).2,
    effOffset_nonneg offsetRaw, ?_⟩
  · rcases effOrder_cases orderRaw with h | h <;> rw [h]
    · exact Or.inl (by decide)
    · exact Or.inr (by decide)
  · rfl

/-- C2: the effective limit echoed in the envelope is the parsed raw limit
exactly when it parses (per `strconv.Atoi`) to a value in [1,100], and 10
in every other case (non-numeric, out of range, or absent). -/
theorem limitValidationEchoed (db : List User) (q sortRaw orderRaw limitRaw offsetRaw : String) :
    (listUsers db q sortRaw orderRaw limitRaw offsetRaw).limit =
      (match goAtoi limitRaw with
       | some n => if 1 ≤ n ∧ n ≤ 100 then n else 10
       | none => 10) := by
  show effLimit limitRaw = _
  exact effLimit_eq limitRaw

/-- C3: the effective offset echoed in the envelope is the parsed raw
offset exactly when it parses (per `strconv.Atoi`) to a nonnegative value,
and 0 in every other case (non-numeric, negative, or absent). -/
theorem offsetValidationEchoed (db : List User) (q sortRaw orderRaw limitRaw offsetRaw : String) :
    (listUsers db q sortRaw orderRaw limitRaw offsetRaw).offset =
      (match goAtoi offsetRaw with
       | some n => if 0 ≤ n then n else 0
       | none => 0) := by
  show effOffset offsetRaw = _
  exact effOffset_eq offsetRaw

/-- C4: a raw sort value outside the allow-list yields effective sort "id";
a raw order other than exactly "asc"/"desc" (case-sensitively) yields
effective order "asc"; and the envelope echoes the validated values, not
the raw input. -/
theorem sortOrderValidationEchoed (db : List User) (q sortRaw orderRaw limitRaw offsetRaw : String) :
    ((sortRaw ≠ "id" ∧ sortRaw ≠ "name" ∧ sortRaw ≠ "email") →
      (listUsers db q sortRaw orderRaw limitRaw offsetRaw).sort = "id") ∧
    ((orderRaw ≠ "asc" ∧ orderRaw ≠ "desc") →
      (listUsers db q sortRaw orderRaw limitRaw offsetRaw).order = "asc") ∧
    (listUsers db q sortRaw orderRaw limitRaw offsetRaw).sort = effSort sortRaw ∧
    (listUsers db q sortRaw orderRaw limitRaw offsetRaw).order = effOrder orderRaw := by
  refine ⟨fun h => ?_, fun h => ?_, rfl, rfl⟩
  · show effSort sortRaw = "id"
    exact effSort_default sortRaw h.1 h.2.1 h.2.2
  · show effOrder orderRaw = "asc"
    exact effOrder_default orderRaw h.1 h.2

/-- Witness for C4 at the spec scenario sort=password, order=DESC. -/
theorem sortOrderValidationEchoed_witness :
    (listUsers [] "" "password" "DESC" "200" "-5").sort = "id" ∧
    (listUsers [] "" "password" "DESC" "200" "-5").order = "asc" :=
  ⟨(sortOrderValidationEchoed [] "" "password" "DESC" "200" "-5").1 (by decide),
   (sortOrderValidationEchoed [] "" "password" "DESC" "200" "-5").2.1 (by decide)⟩

/-- C5 counterexample: the raw term is used verbatim inside the ILIKE
pattern, so its LIKE metacharacters act as wildcards.  With q = "_" the
single stored row (name "x", email "y") is returned although neither field
contains "_" as a (case-insensitive) substring. -/
theorem searchSubstring_counterexample :
    itemsOf (listUsers [⟨1, "x", "y", 0, 0⟩] "_" "" "" "" "") = [⟨1, "x", "y", 0, 0⟩] ∧
    ¬ ciContains "_" "x" ∧ ¬ ciContains "_" "y" := by decide

/-- C5 (amended): with an empty term no WHERE fragment is emitted, there
are no bound parameters, and the rows are unfiltered; with a non-empty
term free of LIKE metacharacters (%, _, backslash), every returned row has
a name or an email containing the term case-insensitively. -/
theorem searchFilterSemantics (db : List User) (q sortRaw orderRaw limitRaw offsetRaw : String) :
    (q = "" →
      buildListQuery q sortRaw orderRaw limitRaw offsetRaw =
        (baseSelect ++ "ORDER BY " ++ effSort sortRaw ++ " " ++ goToUpper (effOrder orderRaw) ++
          " LIMIT " ++ toString (effLimit limitRaw) ++ " OFFSET " ++ toString (effOffset offsetRaw),
         []) ∧
      itemsOf (listUsers db q sortRaw orderRaw limitRaw offsetRaw) =
        ((sortRows (rowLE (effSort sortRaw) (effOrder orderRaw)) db).drop
          (effOffset offsetRaw).toNat).take (effLimit limitRaw).toNat) ∧
    (q ≠ "" → noMeta q →
      ∀ u ∈ itemsOf (listUsers db q sortRaw orderRaw limitRaw offsetRaw),
        ciContains q u.name ∨ ciContains q u.email) := by
  have hne : ¬(("" : String) ≠ "") := fun h => h rfl
  constructor
  · rintro rfl
    constructor
    · show (queryText "" _ _ _ _, listArgs "") = _
      unfold queryText listArgs
      rw [if_neg hne, if_neg hne, String.append_empty]
    · rw [itemsOf_listUsers]
      show ((sortRows _ (if ("" : String) ≠ "" then _ else db)).drop _).take _ = _
      rw [if_neg hne]
  · intro hq hnm u hu
    rw [itemsOf_listUsers] at hu
    have h2 := (mem_semanticRows _ _ _ _ _ _ u hu).2 hq
    simp only [matchesSearch, Bool.or_eq_true] at h2
    rcases h2 with hname | hemail
    · exact Or.inl ((ilike_ciContains q u.name hnm).1 hname)
    · exact Or.inr ((ilike_ciContains q u.email hnm).1 hemail)

/-- Witness for C5 (amended) on a one-row store matched by q = "ali". -/
theorem searchFilterSemantics_witness :
    ciContains "ali" "Alice" ∨ ciContains "ali" "alice@example.com" :=
  (searchFilterSemantics [⟨1, "Alice", "alice@example.com", 0, 0⟩] "ali" "" "" "" "").2
    (by decide) (by decide) ⟨1, "Alice", "alice@example.com", 0, 0⟩ (by decide)

/-- C6: every GET /users response is either a 500 error carrying no items
(query failure or any scan failure, discarding all accumulated rows), or a
200 envelope carrying every successfully fetched row; no partial list is
ever returned. -/
theorem listResponseNoPartial (fetch : FetchResult) (q sortRaw orderRaw limitRaw offsetRaw : String) :
    (∃ e, listUsersResponse fetch q sortRaw orderRaw limitRaw offsetRaw =
      Response.jsonErr 500 e) ∨
    (∃ us, fetchOk fetch = some us ∧
      listUsersResponse fetch q sortRaw orderRaw limitRaw offsetRaw =
        Response.json200 { items := accumRows us, limit := effLimit limitRaw,
                           offset := effOffset offsetRaw, sort := effSort sortRaw,
                           order := effOrder orderRaw, query := q }) := by
  cases fetch with
  | queryErr e => exact Or.inl ⟨e, rfl⟩
  | rows rs =>
    rcases scanLoop_cases (effLimit limitRaw) (effOffset offsetRaw) (effSort sortRaw)
        (effOrder orderRaw) q rs none with ⟨e, he⟩ | ⟨us, hus, heq⟩
    · exact Or.inl ⟨e, he⟩
    · exact Or.inr ⟨us, hus, heq⟩

/-- C7 (code bug): in the in-memory variant the path id is compared with
`string(rune(u.ID+'0'))`, a single character, so the existing user with the
multi-digit id 10 is never found (404); and in the database-backed variant
any store failure is reported as 404 "user not found", not 500. -/
theorem getUserById_spec_violations :
    (∃ u ∈ grownStore, u.id = 10) ∧
    getUserById2 grownStore "10" = none ∧
    getUserById1 (RowResult.dbErr "connection refused") =
      UserResponse.errResp 404 "user not found" := by
  refine ⟨⟨⟨10, "Judy", "judy@example.com"⟩, by decide, rfl⟩, by decide, rfl⟩

/-- C8 (code bug): the in-memory variant's PUT replaces the stored record
wholesale with the decoded body, so a body carrying id 99 changes the id
of the user addressed as /users/1 - in the store and in the response. -/
theorem putUser_overwrites_id :
    putUser2 [⟨1, "John Doe", "john@example.com"⟩] "1" ⟨99, "Eve", "eve@example.com"⟩ =
      ([⟨99, "Eve", "eve@example.com"⟩], some ⟨99, "Eve", "eve@example.com"⟩) ∧
    (putUser2 [⟨1, "John Doe", "john@example.com"⟩] "1"
      ⟨99, "Eve", "eve@example.com"⟩).1.map User2.id = [99] := by decide

/-- C9: the list handler is a pure function of the store state and the raw
parameters, so two executions of the same request against an unchanged
store produce identical envelopes. -/
theorem listQueryDeterministic (db : List User) (q sortRaw orderRaw limitRaw offsetRaw : String)
    (env1 env2 : Envelope)
    (h1 : env1 = listUsers db q sortRaw orderRaw limitRaw offsetRaw)
    (h2 : env2 = listUsers db q sortRaw orderRaw limitRaw offsetRaw) :
    env1 = env2 := h1.trans h2.symm

/-- Witness for C9 on a concrete request. -/
theorem listQueryDeterministic_witness :
    listUsers [] "" "" "" "" "" = listUsers [] "" "" "" "" "" :=
  listQueryDeterministic [] "" "" "" "" "" _ _ rfl rfl

/-- C10: when the denoted query returns zero rows, the handler still
responds 200 but the accumulator slice was never allocated, so the
envelope's items field is `none` (Go nil slice, JSON null), not an empty
array. -/
theorem emptyResultNullItems (db : List User) (q sortRaw orderRaw limitRaw offsetRaw : String)
    (h : semanticRows db q (effSort sortRaw) (effOrder orderRaw)
        (effLimit limitRaw) (effOffset offsetRaw) = []) :
    listUsersResponse
      (FetchResult.rows ((semanticRows db q (effSort sortRaw) (effOrder orderRaw)
        (effLimit limitRaw) (effOffset offsetRaw)).map ScanRow.ok))
      q sortRaw orderRaw limitRaw offsetRaw =
      Response.json200 { items := none, limit := effLimit limitRaw,
                         offset := effOffset offsetRaw, sort := effSort sortRaw,
                         order := effOrder orderRaw, query := q } := by
  rw [h]
  rfl

/-- Witness for C10: a store whose only row does not match q = "zzz". -/
theorem emptyResultNullItems_witness :
    listUsersResponse
      (FetchResult.rows ((semanticRows [⟨1, "Bob", "bob@example.com", 0, 0⟩] "zzz"
        (effSort "") (effOrder "") (effLimit "") (effOffset "")).map ScanRow.ok))
      "zzz" "" "" "" "" =
      Response.json200 { items := none, limit := effLimit "", offset := effOffset "",
                         sort := effSort "", order := effOrder "", query := "zzz" } :=
  emptyResultNullItems [⟨1, "Bob", "bob@example.com", 0, 0⟩] "zzz" "" "" "" "" (by decide)

end GoRest
